import Mathlib

/-!
Shallow embedding of the WebRTC signaling server (`signaling-server.py`).

The server keeps a global dictionary `rooms : roomId -> (peerId -> peer data)`,
where the peer data is a dict holding a FIFO list of pending message dicts and
a `lastPoll` timestamp.  We model Python dicts as insertion-ordered association
lists over `String` keys (matching CPython dict semantics: lookup finds the
entry, assignment updates in place or appends a new entry at the tail, and
deletion preserves the order of the remaining entries).  Timestamps are `Nat`;
each handler receives the current clock value `now` explicitly in place of its
`time.time()` calls.  JSON fields that may be absent are `Option` arguments;
Python's falsiness test `not s` on a string field is `truthy` below (absent or
empty string are both falsy).  Handlers return their JSON result (`none` for
the 400 validation error) together with the registry after the call.
-/

/-- A queued signaling message, one constructor per handler that builds one
(`handle_offer`, `handle_answer`, `handle_ice_candidate`).  The fields are the
entries of the Python dict appended to a mailbox: the payload, `roomId`,
`peerId` (the sender) and `timestamp`. -/
inductive Message where
  | offer (sdp roomId peerId : String) (timestamp : Nat)
  | answer (sdp roomId peerId : String) (timestamp : Nat)
  | ice (candidate sdpMid : String) (sdpMLineIndex : Int) (roomId peerId : String)
      (timestamp : Nat)
  deriving DecidableEq, Repr

/-- The `timestamp` entry of a message dict. -/
def Message.timestamp : Message → Nat
  | .offer _ _ _ t => t
  | .answer _ _ _ t => t
  | .ice _ _ _ _ _ t => t

/-- One peer's entry in a room: `{'messages': [...], 'lastPoll': t}`. -/
structure PeerData where
  messages : List Message
  lastPoll : Nat
  deriving DecidableEq, Repr

/-- A room's dict mapping peer ids to their data. -/
abbrev PeersMap := List (String × PeerData)

/-- The global `rooms` dict mapping room ids to rooms. -/
abbrev Rooms := List (String × PeersMap)

/-- Dict lookup: the value stored at key `k`, if present. -/
def find? {α : Type} : List (String × α) → String → Option α
  | [], _ => none
  | (k', v) :: rest, k => if k' = k then some v else find? rest k

/-- Dict assignment `d[k] = v`: update in place if the key is present,
otherwise append the new entry at the tail (CPython insertion order). -/
def setKey {α : Type} : List (String × α) → String → α → List (String × α)
  | [], k, v => [(k, v)]
  | (k', v') :: rest, k, v =>
      if k' = k then (k', v) :: rest else (k', v') :: setKey rest k v

/-- Python truthiness of an optional string field: `not s` is true exactly
when the field is absent (`None`) or the empty string. -/
def truthy : Option String → Bool
  | none => false
  | some s => decide (s ≠ "")

/-- `if room_id not in rooms: rooms[room_id] = {}` — shared preamble of all
four registry operations. -/
def ensureRoom (rooms : Rooms) (rid : String) : Rooms :=
  if (find? rooms rid).isSome then rooms else setKey rooms rid []

/-- Body of the fan-out loop for one target peer: create the peer entry if
absent (`{'messages': [], 'lastPoll': now}`), then append the message. -/
def pushMsg (now : Nat) (msg : Message) : Option PeerData → PeerData
  | none => ⟨[msg], now⟩
  | some pd => ⟨pd.messages ++ [msg], pd.lastPoll⟩

/-- One iteration of the fan-out loop over `other_peer_ids`. -/
def appendTo (now : Nat) (msg : Message) (peers : PeersMap) (pid : String) : PeersMap :=
  setKey peers pid (pushMsg now msg (find? peers pid))

/-- The shared body of the three submit handlers (their code inside
`with rooms_lock` is identical up to the message dict they build): ensure the
room, snapshot `other_peer_ids` (all keys different from the sender), append
the message to each of their mailboxes, and report
`forwardedTo = len(other_peer_ids)`. -/
def submitMessage (now : Nat) (rid pid : String) (msg : Message) (rooms : Rooms) :
    Nat × Rooms :=
  let rooms1 := ensureRoom rooms rid
  let peers := (find? rooms1 rid).getD []
  let otherIds := (peers.map Prod.fst).filter (fun q => decide (q ≠ pid))
  let peers1 := otherIds.foldl (appendTo now msg) peers
  (otherIds.length, setKey rooms1 rid peers1)

/-- `POST /offer` (`handle_offer`): validate `sdp` and `roomId`, default
`peerId` to `"unknown"`, fan the offer message out to every other peer.
Returns `(forwardedTo, rooms')`, or `(none, rooms)` on the 400 error. -/
def handle_offer (now : Nat) (sdp roomId peerId : Option String) (rooms : Rooms) :
    Option Nat × Rooms :=
  let pid := peerId.getD "unknown"
  if truthy sdp && truthy roomId then
    let rid := roomId.getD ""
    let r := submitMessage now rid pid (Message.offer (sdp.getD "") rid pid now) rooms
    (some r.1, r.2)
  else (none, rooms)

/-- `POST /answer` (`handle_answer`): identical to `handle_offer` except for
the message built. -/
def handle_answer (now : Nat) (sdp roomId peerId : Option String) (rooms : Rooms) :
    Option Nat × Rooms :=
  let pid := peerId.getD "unknown"
  if truthy sdp && truthy roomId then
    let rid := roomId.getD ""
    let r := submitMessage now rid pid (Message.answer (sdp.getD "") rid pid now) rooms
    (some r.1, r.2)
  else (none, rooms)

/-- `POST /ice-candidate` (`handle_ice_candidate`): validates `candidate` and
`roomId`; `sdpMid` defaults to `""` and `sdpMLineIndex` to `0`. -/
def handle_ice_candidate (now : Nat) (candidate sdpMid : Option String)
    (sdpMLineIndex : Option Int) (roomId peerId : Option String) (rooms : Rooms) :
    Option Nat × Rooms :=
  let pid := peerId.getD "unknown"
  if truthy candidate && truthy roomId then
    let rid := roomId.getD ""
    let r := submitMessage now rid pid
      (Message.ice (candidate.getD "") (sdpMid.getD "") (sdpMLineIndex.getD 0) rid pid now)
      rooms
    (some r.1, r.2)
  else (none, rooms)

/-- `GET /messages` (`poll_messages`): validate `roomId`, default `peerId` to
`"unknown"`, create the room and peer entry if absent, set `lastPoll` to now,
return a copy of the pending messages and clear the mailbox. -/
def poll_messages (now : Nat) (roomId peerId : Option String) (rooms : Rooms) :
    Option (List Message) × Rooms :=
  let pid := peerId.getD "unknown"
  if truthy roomId then
    let rid := roomId.getD ""
    let rooms1 := ensureRoom rooms rid
    let peers := (find? rooms1 rid).getD []
    let peers1 := if (find? peers pid).isSome then peers else setKey peers pid ⟨[], now⟩
    let pd := (find? peers1 pid).getD ⟨[], now⟩
    let peers2 := setKey peers1 pid ⟨[], now⟩
    (some pd.messages, setKey rooms1 rid peers2)
  else (none, rooms)

/-- `max_age = 30` in `cleanup_old_messages`. -/
def max_age : Nat := 30

/-- Message-expiry step of the sweeper for one peer: keep exactly the messages
with `now - msg['timestamp'] < max_age` (Python float subtraction can be
negative there; truncated `Nat` subtraction yields `0 < max_age` in the same
cases, so the kept set agrees). -/
def sweepPeer (now : Nat) (pd : PeerData) : PeerData :=
  ⟨pd.messages.filter (fun m => decide (now - m.timestamp < max_age)), pd.lastPoll⟩

/-- One room's share of a sweeper pass: expire messages in every mailbox, then
delete every peer whose mailbox ended up empty and whose `lastPoll` is more
than `max_age` old. -/
def sweepRoom (now : Nat) (peers : PeersMap) : PeersMap :=
  (peers.map (fun e => (e.1, sweepPeer now e.2))).filter
    (fun e => !(decide (e.2.messages.length = 0 ∧ max_age < now - e.2.lastPoll)))

/-- One full pass of `cleanup_old_messages` (the body of its `while True` loop
under `rooms_lock`): sweep every room, then delete every room left with no
peers. -/
def cleanup_pass (now : Nat) (rooms : Rooms) : Rooms :=
  (rooms.map (fun e => (e.1, sweepRoom now e.2))).filter
    (fun e => !(decide (e.2.length = 0)))

/-- `GET /status` (`get_status`): `(rooms, totalPeers, totalPendingMessages)`. -/
def get_status (rooms : Rooms) : Nat × Nat × Nat :=
  (rooms.length,
   (rooms.map (fun e => e.2.length)).sum,
   (rooms.map (fun e => (e.2.map (fun p => p.2.messages.length)).sum)).sum)

/-- The peer data stored for `pid` in room `rid`, if both exist. -/
def peerAt (rooms : Rooms) (rid pid : String) : Option PeerData :=
  (find? rooms rid).bind (fun peers => find? peers pid)

/-- Well-formedness of the registry as a nested dict: no duplicate room keys
and no duplicate peer keys within a room.  Every state reachable from the
initial `rooms = {}` by the operations above satisfies this (dict writes
never duplicate a key). -/
def WF (rooms : Rooms) : Prop :=
  (rooms.map Prod.fst).Nodup ∧ ∀ e ∈ rooms, ((e.2 : PeersMap).map Prod.fst).Nodup

/-! ### Association-list lemmas -/

theorem find?_setKey_self {α : Type} (m : List (String × α)) (k : String) (v : α) :
    find? (setKey m k v) k = some v := by
  induction m with
  | nil => simp [setKey, find?]
  | cons e rest ih =>
      obtain ⟨k', v'⟩ := e
      by_cases h : k' = k
      · simp [setKey, find?, h]
      · simp [setKey, find?, h, ih]

theorem find?_setKey_ne {α : Type} (m : List (String × α)) (k k' : String) (v : α)
    (h : k ≠ k') : find? (setKey m k v) k' = find? m k' := by
  induction m with
  | nil => simp [setKey, find?, h]
  | cons e rest ih =>
      obtain ⟨a, b⟩ := e
      by_cases ha : a = k
      · subst ha; simp [setKey, find?, h]
      · by_cases ha' : a = k'
        · subst ha'; simp [setKey, find?, Ne.symm h]
        · simp [setKey, find?, ha, ha', ih]

theorem find?_mem {α : Type} {m : List (String × α)} {k : String} {v : α}
    (h : find? m k = some v) : (k, v) ∈ m := by
  induction m with
  | nil => simp [find?] at h
  | cons e rest ih =>
      obtain ⟨a, b⟩ := e
      by_cases ha : a = k
      · subst ha
        simp [find?] at h
        subst h
        exact List.mem_cons_self _ _
      · simp [find?, ha] at h
        exact List.mem_cons_of_mem _ (ih h)

theorem find?_isSome_iff_mem {α : Type} (m : List (String × α)) (k : String) :
    (find? m k).isSome ↔ k ∈ m.map Prod.fst := by
  induction m with
  | nil => simp [find?]
  | cons e rest ih =>
      obtain ⟨a, b⟩ := e
      by_cases ha : a = k
      · subst ha; simp [find?]
      · simp [find?, ha, ih, Ne.symm ha]

theorem find?_eq_none_iff_not_mem {α : Type} (m : List (String × α)) (k : String) :
    find? m k = none ↔ k ∉ m.map Prod.fst := by
  rw [← find?_isSome_iff_mem, Option.not_isSome_iff_eq_none]

theorem keys_setKey_present {α : Type} {m : List (String × α)} {k : String} (v : α)
    (h : k ∈ m.map Prod.fst) : (setKey m k v).map Prod.fst = m.map Prod.fst := by
  induction m with
  | nil => simp at h
  | cons e rest ih =>
      obtain ⟨a, b⟩ := e
      by_cases ha : a = k
      · simp [setKey, ha]
      · simp only [List.map_cons, List.mem_cons] at h
        rcases h with h | h
        · exact absurd h.symm ha
        · simp [setKey, ha, ih h]

theorem setKey_ne_nil {α : Type} (m : List (String × α)) (k : String) (v : α) :
    setKey m k v ≠ [] := by
  cases m with
  | nil => simp [setKey]
  | cons e rest =>
      obtain ⟨a, b⟩ := e
      by_cases ha : a = k <;> simp [setKey, ha]

/-! ### The fan-out loop -/

theorem find?_appendTo_self (now : Nat) (msg : Message) (peers : PeersMap) (pid : String) :
    find? (appendTo now msg peers pid) pid = some (pushMsg now msg (find? peers pid)) :=
  find?_setKey_self _ _ _

theorem find?_appendTo_ne (now : Nat) (msg : Message) (peers : PeersMap) {pid q : String}
    (h : pid ≠ q) : find? (appendTo now msg peers pid) q = find? peers q :=
  find?_setKey_ne _ _ _ _ h

theorem find?_foldl_appendTo (now : Nat) (msg : Message) (ids : List String)
    (peers : PeersMap) (q : String) (hnd : ids.Nodup) :
    find? (ids.foldl (appendTo now msg) peers) q =
      if q ∈ ids then some (pushMsg now msg (find? peers q)) else find? peers q := by
  induction ids generalizing peers with
  | nil => simp
  | cons a ids ih =>
      rw [List.nodup_cons] at hnd
      rw [List.foldl_cons, ih _ hnd.2]
      by_cases hq : q = a
      · subst hq
        simp [hnd.1, find?_appendTo_self]
      · rw [find?_appendTo_ne now msg peers (Ne.symm hq)]
        simp [Ne.symm hq, hq]

theorem keys_foldl_appendTo (now : Nat) (msg : Message) (ids : List String)
    (peers : PeersMap) (h : ∀ a ∈ ids, a ∈ peers.map Prod.fst) :
    (ids.foldl (appendTo now msg) peers).map Prod.fst = peers.map Prod.fst := by
  induction ids generalizing peers with
  | nil => simp
  | cons a ids ih =>
      rw [List.foldl_cons]
      have hkeys : (appendTo now msg peers a).map Prod.fst = peers.map Prod.fst :=
        keys_setKey_present _ (h a (List.mem_cons_self _ _))
      rw [ih _ (fun b hb => hkeys ▸ h b (List.mem_cons_of_mem _ hb)), hkeys]

/-! ### `ensureRoom` and `submitMessage` -/

theorem find?_ensureRoom_self (rooms : Rooms) (rid : String) :
    find? (ensureRoom rooms rid) rid = some ((find? rooms rid).getD []) := by
  unfold ensureRoom
  cases h : find? rooms rid with
  | none => simp [h, find?_setKey_self]
  | some peers => simp [h]

theorem find?_ensureRoom_ne (rooms : Rooms) {rid rid' : String} (h : rid ≠ rid') :
    find? (ensureRoom rooms rid) rid' = find? rooms rid' := by
  unfold ensureRoom
  cases hr : find? rooms rid with
  | none => simp [find?_setKey_ne _ _ _ _ h]
  | some peers => simp

/-- Number of other peers: `len(other_peer_ids)` equals the number of entries
of the room whose key differs from the sender. -/
theorem length_filter_keys {α : Type} (l : List (String × α)) (p : String → Bool) :
    ((l.map Prod.fst).filter p).length = (l.filter (fun e => p e.1)).length := by
  induction l with
  | nil => simp
  | cons e rest ih =>
      cases hp : p e.1 <;> simp [hp, ih]

theorem submitMessage_forwardedTo (now : Nat) (rid pid : String) (msg : Message)
    (rooms : Rooms) :
    (submitMessage now rid pid msg rooms).1 =
      (((find? rooms rid).getD []).filter (fun e => decide (e.1 ≠ pid))).length := by
  unfold submitMessage
  simp only [find?_ensureRoom_self, Option.getD_some]
  exact length_filter_keys _ _

theorem submitMessage_room (now : Nat) (rid pid : String) (msg : Message) (rooms : Rooms) :
    find? (submitMessage now rid pid msg rooms).2 rid =
      some ((((find? rooms rid).getD []).map Prod.fst).filter
          (fun q => decide (q ≠ pid)) |>.foldl (appendTo now msg)
          ((find? rooms rid).getD [])) := by
  unfold submitMessage
  simp only [find?_ensureRoom_self, Option.getD_some]
  exact find?_setKey_self _ _ _

theorem submitMessage_other_room (now : Nat) (rid pid : String) (msg : Message)
    (rooms : Rooms) {rid' : String} (h : rid ≠ rid') :
    find? (submitMessage now rid pid msg rooms).2 rid' = find? rooms rid' := by
  unfold submitMessage
  simp only
  rw [find?_setKey_ne _ _ _ _ h, find?_ensureRoom_ne _ h]

/-- The sender's own entry is untouched by a submit (`other_peer_ids` excludes
it), and every other id's entry gets exactly the message appended at the tail
(absent ids stay absent: only existing keys of the room are iterated). -/
theorem submitMessage_peer (now : Nat) (rid pid : String) (msg : Message) (rooms : Rooms)
    (hnd : (((find? rooms rid).getD []).map Prod.fst).Nodup) :
    peerAt (submitMessage now rid pid msg rooms).2 rid pid =
        find? ((find? rooms rid).getD []) pid ∧
      ∀ q, q ≠ pid → peerAt (submitMessage now rid pid msg rooms).2 rid q =
        (find? ((find? rooms rid).getD []) q).map
          (fun pd => ⟨pd.messages ++ [msg], pd.lastPoll⟩) := by
  set peers : PeersMap := (find? rooms rid).getD [] with hpeers
  have hids : (((peers.map Prod.fst).filter (fun q => decide (q ≠ pid)))).Nodup :=
    hnd.filter _
  have hfold : ∀ q, find? (((peers.map Prod.fst).filter
      (fun q => decide (q ≠ pid))).foldl (appendTo now msg) peers) q =
      if q ∈ (peers.map Prod.fst).filter (fun q => decide (q ≠ pid)) then
        some (pushMsg now msg (find? peers q)) else find? peers q :=
    fun q => find?_foldl_appendTo now msg _ peers q hids
  constructor
  · rw [peerAt, submitMessage_room, Option.some_bind, ← hpeers, hfold]
    have : pid ∉ (peers.map Prod.fst).filter (fun q => decide (q ≠ pid)) := by
      intro hmem
      simpa using (List.mem_filter.1 hmem).2
    rw [if_neg this]
  · intro q hq
    rw [peerAt, submitMessage_room, Option.some_bind, ← hpeers, hfold]
    cases hfq : find? peers q with
    | none =>
        have : q ∉ (peers.map Prod.fst).filter (fun q => decide (q ≠ pid)) := by
          intro hmem
          have := (List.mem_filter.1 hmem).1
          rw [← find?_isSome_iff_mem, hfq] at this
          simp at this
        rw [if_neg this]
        rfl
    | some pd =>
        have hmemk : q ∈ peers.map Prod.fst := by
          rw [← find?_isSome_iff_mem, hfq]; rfl
        have : q ∈ (peers.map Prod.fst).filter (fun q => decide (q ≠ pid)) :=
          List.mem_filter.2 ⟨hmemk, by simpa using hq⟩
        rw [if_pos this]
        rfl

/-- A submit does not change the set (or order) of peer keys of the room. -/
theorem submitMessage_keys (now : Nat) (rid pid : String) (msg : Message) (rooms : Rooms) :
    ((find? (submitMessage now rid pid msg rooms).2 rid).getD []).map Prod.fst =
      ((find? rooms rid).getD []).map Prod.fst := by
  rw [submitMessage_room, Option.getD_some]
  exact keys_foldl_appendTo now msg _ _ (fun a ha => (List.mem_filter.1 ha).1)

/-- What a correct fan-out means for the result `(forwardedTo?, rooms')` of a
submit of `msg` by `pid` into room `rid` against registry `rooms`:
`forwardedTo` counts the other peers present, the sender's entry is exactly
what it was (in particular none is created), and every other peer's mailbox
gets exactly `msg` appended at its tail (with `lastPoll` unchanged), absent
peers staying absent. -/
def FanoutOK (res : Option Nat × Rooms) (rooms : Rooms) (rid pid : String)
    (msg : Message) : Prop :=
  res.1 = some (((find? rooms rid).getD []).filter (fun e => decide (e.1 ≠ pid))).length ∧
  peerAt res.2 rid pid = find? ((find? rooms rid).getD []) pid ∧
  ∀ q, q ≠ pid → peerAt res.2 rid q =
    (find? ((find? rooms rid).getD []) q).map (fun pd => ⟨pd.messages ++ [msg], pd.lastPoll⟩)

theorem submitMessage_fanoutOK (now : Nat) (rid pid : String) (msg : Message)
    (rooms : Rooms) (hnd : (((find? rooms rid).getD []).map Prod.fst).Nodup) :
    FanoutOK (some (submitMessage now rid pid msg rooms).1,
      (submitMessage now rid pid msg rooms).2) rooms rid pid msg := by
  refine ⟨?_, (submitMessage_peer now rid pid msg rooms hnd).1,
    (submitMessage_peer now rid pid msg rooms hnd).2⟩
  simp [submitMessage_forwardedTo]

/-! ### Reduction of the handlers to `submitMessage` on valid input -/

theorem handle_offer_valid (now : Nat) (sdp roomId peerId : Option String) (rooms : Rooms)
    (h1 : truthy sdp = true) (h2 : truthy roomId = true) :
    handle_offer now sdp roomId peerId rooms =
      (some (submitMessage now (roomId.getD "") (peerId.getD "unknown")
          (Message.offer (sdp.getD "") (roomId.getD "") (peerId.getD "unknown") now)
          rooms).1,
        (submitMessage now (roomId.getD "") (peerId.getD "unknown")
          (Message.offer (sdp.getD "") (roomId.getD "") (peerId.getD "unknown") now)
          rooms).2) := by
  simp [handle_offer, h1, h2]

theorem handle_answer_valid (now : Nat) (sdp roomId peerId : Option String) (rooms : Rooms)
    (h1 : truthy sdp = true) (h2 : truthy roomId = true) :
    handle_answer now sdp roomId peerId rooms =
      (some (submitMessage now (roomId.getD "") (peerId.getD "unknown")
          (Message.answer (sdp.getD "") (roomId.getD "") (peerId.getD "unknown") now)
          rooms).1,
        (submitMessage now (roomId.getD "") (peerId.getD "unknown")
          (Message.answer (sdp.getD "") (roomId.getD "") (peerId.getD "unknown") now)
          rooms).2) := by
  simp [handle_answer, h1, h2]

theorem handle_ice_valid (now : Nat) (candidate sdpMid : Option String)
    (sdpMLineIndex : Option Int) (roomId peerId : Option String) (rooms : Rooms)
    (h1 : truthy candidate = true) (h2 : truthy roomId = true) :
    handle_ice_candidate now candidate sdpMid sdpMLineIndex roomId peerId rooms =
      (some (submitMessage now (roomId.getD "") (peerId.getD "unknown")
          (Message.ice (candidate.getD "") (sdpMid.getD "") (sdpMLineIndex.getD 0)
            (roomId.getD "") (peerId.getD "unknown") now) rooms).1,
        (submitMessage now (roomId.getD "") (peerId.getD "unknown")
          (Message.ice (candidate.getD "") (sdpMid.getD "") (sdpMLineIndex.getD 0)
            (roomId.getD "") (peerId.getD "unknown") now) rooms).2) := by
  simp [handle_ice_candidate, h1, h2]

/-- Claim C1: every submit (offer, answer or ICE candidate) by a sender into a
room appends exactly one message to the mailbox of every other peer currently
present in that room, appends nothing to (and creates no entry for) the sender
itself, and reports `forwardedTo` equal to the number of those other peers —
in particular `forwardedTo = 0` when no other peer has ever been seen in the
room. -/
theorem fanout_correct (now : Nat) (sdp cand mid roomId peerId : Option String)
    (mli : Option Int) (rooms : Rooms)
    (hnd : (((find? rooms (roomId.getD "")).getD []).map Prod.fst).Nodup)
    (hroom : truthy roomId = true) :
    (truthy sdp = true →
      FanoutOK (handle_offer now sdp roomId peerId rooms) rooms (roomId.getD "")
        (peerId.getD "unknown")
        (Message.offer (sdp.getD "") (roomId.getD "") (peerId.getD "unknown") now)) ∧
    (truthy sdp = true →
      FanoutOK (handle_answer now sdp roomId peerId rooms) rooms (roomId.getD "")
        (peerId.getD "unknown")
        (Message.answer (sdp.getD "") (roomId.getD "") (peerId.getD "unknown") now)) ∧
    (truthy cand = true →
      FanoutOK (handle_ice_candidate now cand mid mli roomId peerId rooms) rooms
        (roomId.getD "") (peerId.getD "unknown")
        (Message.ice (cand.getD "") (mid.getD "") (mli.getD 0) (roomId.getD "")
          (peerId.getD "unknown") now)) := by
  refine ⟨fun h => ?_, fun h => ?_, fun h => ?_⟩
  · rw [handle_offer_valid now sdp roomId peerId rooms h hroom]
    exact submitMessage_fanoutOK _ _ _ _ _ hnd
  · rw [handle_answer_valid now sdp roomId peerId rooms h hroom]
    exact submitMessage_fanoutOK _ _ _ _ _ hnd
  · rw [handle_ice_valid now cand mid mli roomId peerId rooms h hroom]
    exact submitMessage_fanoutOK _ _ _ _ _ hnd

/-- Concrete run of `fanout_correct`: in room `"r1"` with only peer `"B"`
present, an offer by `"A"` lands exactly once in `"B"`'s mailbox. -/
theorem fanout_correct_witness :
    peerAt (handle_offer 5 (some "v=0") (some "r1") (some "A")
        [("r1", [("B", ⟨[], 0⟩)])]).2 "r1" "B" =
      some ⟨[Message.offer "v=0" "r1" "A" 5], 0⟩ := by
  have h := (fanout_correct 5 (some "v=0") (some "c") none (some "r1") (some "A") none
      [("r1", [("B", ⟨[], 0⟩)])] (by decide) (by decide)).1 (by decide)
  exact (h.2.2 "B" (by decide)).trans (by decide)

/-! ### The poll operation -/

theorem setKey_setKey {α : Type} (m : List (String × α)) (k : String) (v v' : α) :
    setKey (setKey m k v) k v' = setKey m k v' := by
  induction m with
  | nil => simp [setKey]
  | cons e rest ih =>
      obtain ⟨a, b⟩ := e
      by_cases ha : a = k <;> simp [setKey, ha, ih]

/-- A poll with a valid `roomId` returns the pending messages of the peer's
mailbox (empty when the entry did not exist) and stores back the entry with an
empty message list and `lastPoll = now`; nothing else changes. -/
theorem poll_messages_valid (now : Nat) (roomId peerId : Option String) (rooms : Rooms)
    (h : truthy roomId = true) :
    poll_messages now roomId peerId rooms =
      (some (Option.elim
          (find? ((find? rooms (roomId.getD "")).getD []) (peerId.getD "unknown"))
          [] PeerData.messages),
        setKey (ensureRoom rooms (roomId.getD "")) (roomId.getD "")
          (setKey ((find? rooms (roomId.getD "")).getD [])
            (peerId.getD "unknown") ⟨[], now⟩)) := by
  simp only [poll_messages, h, if_true, find?_ensureRoom_self, Option.getD_some]
  cases hfp : find? ((find? rooms (roomId.getD "")).getD []) (peerId.getD "unknown") with
  | none => simp [hfp, find?_setKey_self, setKey_setKey]
  | some pd0 => simp [hfp]

/-- Claim C2: poll drain is exactly-once — a poll returns the full ordered
contents of the peer's mailbox and atomically empties it, so a second poll by
the same peer with no intervening submit returns the empty sequence. -/
theorem poll_drain (now now2 : Nat) (roomId peerId : Option String) (rooms : Rooms)
    (h : truthy roomId = true) :
    (poll_messages now roomId peerId rooms).1 =
        some (Option.elim
          (find? ((find? rooms (roomId.getD "")).getD []) (peerId.getD "unknown"))
          [] PeerData.messages) ∧
      peerAt (poll_messages now roomId peerId rooms).2 (roomId.getD "")
          (peerId.getD "unknown") = some ⟨[], now⟩ ∧
      (poll_messages now2 roomId peerId (poll_messages now roomId peerId rooms).2).1 =
        some [] := by
  rw [poll_messages_valid now roomId peerId rooms h]
  refine ⟨rfl, ?_, ?_⟩
  · rw [peerAt]
    simp only [find?_setKey_self, Option.some_bind]
  · rw [poll_messages_valid now2 roomId peerId _ h]
    simp only [find?_setKey_self, Option.getD_some]
    rfl

/-- Concrete run of `poll_drain`: `"p2"` polls a one-message mailbox and gets
the message; an immediate second poll gets `[]`. -/
theorem poll_drain_witness :
    (poll_messages 10 (some "r1") (some "p2")
        [("r1", [("p2", ⟨[Message.offer "o" "r1" "p1" 1], 3⟩)])]).1 =
      some [Message.offer "o" "r1" "p1" 1] ∧
    (poll_messages 11 (some "r1") (some "p2")
        (poll_messages 10 (some "r1") (some "p2")
          [("r1", [("p2", ⟨[Message.offer "o" "r1" "p1" 1], 3⟩)])]).2).1 =
      some [] := by
  have h := poll_drain 10 11 (some "r1") (some "p2")
    [("r1", [("p2", ⟨[Message.offer "o" "r1" "p1" 1], 3⟩)])] (by decide)
  exact ⟨h.1.trans (by decide), h.2.2⟩

/-! ### FIFO order -/

/-- One submit step seen from a fixed other peer `b`: the room's keys are
unchanged and `b`'s mailbox gets `msg` appended at the tail. -/
theorem submit_step (now : Nat) (rid a b : String) (msg : Message) (rooms : Rooms)
    (hnd : (((find? rooms rid).getD []).map Prod.fst).Nodup) (hba : b ≠ a)
    (pd : PeerData) (hb : find? ((find? rooms rid).getD []) b = some pd) :
    ((find? (submitMessage now rid a msg rooms).2 rid).getD []).map Prod.fst =
        ((find? rooms rid).getD []).map Prod.fst ∧
      find? ((find? (submitMessage now rid a msg rooms).2 rid).getD []) b =
        some ⟨pd.messages ++ [msg], pd.lastPoll⟩ := by
  refine ⟨submitMessage_keys now rid a msg rooms, ?_⟩
  have h2 := (submitMessage_peer now rid a msg rooms hnd).2 b hba
  rw [peerAt, submitMessage_room, Option.some_bind] at h2
  rw [submitMessage_room, Option.getD_some, h2, hb]
  rfl

/-- Claim C3: mailboxes are FIFO across message kinds — after peer `a` submits
an offer, then an ICE candidate, then an answer into room `rid`, a poll by a
peer `b` (present with an empty mailbox beforehand) returns exactly
`[offer, ice, answer]`, the append order. -/
theorem fifo_order (n1 n2 n3 n4 : Nat) (rid a b sdpO c mid sdpA : String) (mli : Int)
    (rooms : Rooms) (hnd : (((find? rooms rid).getD []).map Prod.fst).Nodup)
    (hrid : rid ≠ "") (hsO : sdpO ≠ "") (hc : c ≠ "") (hsA : sdpA ≠ "") (hba : b ≠ a)
    (pd : PeerData) (hb : find? ((find? rooms rid).getD []) b = some pd)
    (hpd : pd.messages = []) :
    (poll_messages n4 (some rid) (some b)
        (handle_answer n3 (some sdpA) (some rid) (some a)
          (handle_ice_candidate n2 (some c) (some mid) (some mli) (some rid) (some a)
            (handle_offer n1 (some sdpO) (some rid) (some a) rooms).2).2).2).1 =
      some [Message.offer sdpO rid a n1,
        Message.ice c mid mli rid a n2,
        Message.answer sdpA rid a n3] := by
  have t1 : truthy (some sdpO) = true := by simp [truthy, hsO]
  have t2 : truthy (some rid) = true := by simp [truthy, hrid]
  have t3 : truthy (some c) = true := by simp [truthy, hc]
  have t4 : truthy (some sdpA) = true := by simp [truthy, hsA]
  have eq1 : (handle_offer n1 (some sdpO) (some rid) (some a) rooms).2 =
      (submitMessage n1 rid a (Message.offer sdpO rid a n1) rooms).2 := by
    rw [handle_offer_valid n1 (some sdpO) (some rid) (some a) rooms t1 t2]
    rfl
  rw [eq1]
  have step1 := submit_step n1 rid a b (Message.offer sdpO rid a n1) rooms hnd hba pd hb
  have hnd1 : (((find? (submitMessage n1 rid a (Message.offer sdpO rid a n1) rooms).2
      rid).getD []).map Prod.fst).Nodup := by
    rw [step1.1]; exact hnd
  have eq2 : (handle_ice_candidate n2 (some c) (some mid) (some mli) (some rid) (some a)
        (submitMessage n1 rid a (Message.offer sdpO rid a n1) rooms).2).2 =
      (submitMessage n2 rid a (Message.ice c mid mli rid a n2)
        (submitMessage n1 rid a (Message.offer sdpO rid a n1) rooms).2).2 := by
    rw [handle_ice_valid n2 (some c) (some mid) (some mli) (some rid) (some a) _ t3 t2]
    rfl
  rw [eq2]
  have step2 := submit_step n2 rid a b (Message.ice c mid mli rid a n2) _ hnd1 hba _ step1.2
  have hnd2 : (((find? (submitMessage n2 rid a (Message.ice c mid mli rid a n2)
      (submitMessage n1 rid a (Message.offer sdpO rid a n1) rooms).2).2
      rid).getD []).map Prod.fst).Nodup := by
    rw [step2.1, step1.1]; exact hnd
  have eq3 : (handle_answer n3 (some sdpA) (some rid) (some a)
        (submitMessage n2 rid a (Message.ice c mid mli rid a n2)
          (submitMessage n1 rid a (Message.offer sdpO rid a n1) rooms).2).2).2 =
      (submitMessage n3 rid a (Message.answer sdpA rid a n3)
        (submitMessage n2 rid a (Message.ice c mid mli rid a n2)
          (submitMessage n1 rid a (Message.offer sdpO rid a n1) rooms).2).2).2 := by
    rw [handle_answer_valid n3 (some sdpA) (some rid) (some a) _ t4 t2]
    rfl
  rw [eq3]
  have step3 := submit_step n3 rid a b (Message.answer sdpA rid a n3) _ hnd2 hba _ step2.2
  rw [poll_messages_valid n4 (some rid) (some b) _ t2]
  simp only [Option.getD_some]
  rw [step3.2]
  simp [hpd]

/-! ### Sweeper lemmas -/

theorem keys_map_snd {α β : Type} (g : α → β) (m : List (String × α)) :
    (m.map (fun e => (e.1, g e.2))).map Prod.fst = m.map Prod.fst := by
  induction m with
  | nil => rfl
  | cons e rest ih => simp [ih]

theorem find?_map_snd {α β : Type} (g : α → β) (m : List (String × α)) (k : String) :
    find? (m.map (fun e => (e.1, g e.2))) k = (find? m k).map g := by
  induction m with
  | nil => rfl
  | cons e rest ih =>
      obtain ⟨a, b⟩ := e
      by_cases ha : a = k <;> simp [find?, ha, ih]

theorem find?_filter_of_none {α : Type} (p : String × α → Bool) {m : List (String × α)}
    {k : String} (h : find? m k = none) : find? (m.filter p) k = none := by
  induction m with
  | nil => rfl
  | cons e rest ih =>
      obtain ⟨a, b⟩ := e
      by_cases ha : a = k
      · simp [find?, ha] at h
      · simp only [find?, ha, if_neg ha] at h
        cases hp : p (a, b) <;> simp [List.filter_cons, hp, find?, ha, ih h]

theorem find?_filter_nodup {α : Type} (p : String × α → Bool) (m : List (String × α))
    (k : String) (hnd : (m.map Prod.fst).Nodup) :
    find? (m.filter p) k =
      (find? m k).bind (fun v => if p (k, v) then some v else none) := by
  induction m with
  | nil => rfl
  | cons e rest ih =>
      obtain ⟨a, b⟩ := e
      rw [List.map_cons, List.nodup_cons] at hnd
      by_cases ha : a = k
      · subst ha
        have hrest : find? rest a = none := by
          rw [find?_eq_none_iff_not_mem]
          exact hnd.1
        cases hp : p (a, b)
        · simp [List.filter_cons, hp, find?, find?_filter_of_none p hrest]
        · simp [List.filter_cons, hp, find?]
      · cases hp : p (a, b) <;> simp [List.filter_cons, hp, find?, ha, ih hnd.2]

/-- What one sweeper pass does to the entry of peer `pid` in room `rid`:
expire its old messages, then drop the peer exactly when the surviving
mailbox is empty and `lastPoll` is more than `max_age` in the past. -/
theorem find?_sweepRoom (now : Nat) (peers : PeersMap) (pid : String)
    (hnd : (peers.map Prod.fst).Nodup) :
    find? (sweepRoom now peers) pid =
      (find? peers pid).bind (fun pd =>
        if (sweepPeer now pd).messages.length = 0 ∧
            max_age < now - (sweepPeer now pd).lastPoll then none
        else some (sweepPeer now pd)) := by
  unfold sweepRoom
  rw [find?_filter_nodup _ _ _ (by rw [keys_map_snd]; exact hnd),
    find?_map_snd (sweepPeer now) peers pid]
  cases hfp : find? peers pid with
  | none => rfl
  | some pd =>
      by_cases h1 : (sweepPeer now pd).messages = [] <;>
        by_cases h2 : max_age < now - (sweepPeer now pd).lastPoll <;>
        simp [h1, h2, List.length_eq_zero] <;> omega

/-- What one sweeper pass does to the entry of room `rid`: sweep the room,
then drop it exactly when no peer survived. -/
theorem find?_cleanup (now : Nat) (rooms : Rooms) (rid : String)
    (hnd : (rooms.map Prod.fst).Nodup) :
    find? (cleanup_pass now rooms) rid =
      (find? rooms rid).bind (fun peers =>
        if (sweepRoom now peers).length = 0 then none else some (sweepRoom now peers)) := by
  unfold cleanup_pass
  rw [find?_filter_nodup _ _ _ (by rw [keys_map_snd]; exact hnd),
    find?_map_snd (sweepRoom now) rooms rid]
  cases hfr : find? rooms rid with
  | none => rfl
  | some peers =>
      by_cases hc : (sweepRoom now peers).length = 0
      · simp [hc]
      · simp [hc]

theorem length_filter_map {α β : Type} (f : α → β) (q : β → Bool) (l : List α) :
    ((l.map f).filter q).length = (l.filter (fun x => q (f x))).length := by
  induction l with
  | nil => rfl
  | cons x l ih => cases hq : q (f x) <;> simp [hq, ih]

/-- Claim C5 is false as stated at the expiry boundary: the code keeps a
message only while `now - timestamp < max_age`, so a message whose age is
exactly `max_age` (here 30, at most `max_age`, which the claim says is
retained) is removed by the pass. -/
theorem sweep_expiry_counterexample :
    30 - (Message.offer "s" "r" "a" 0).timestamp ≤ max_age ∧
      cleanup_pass 30 [("r", [("b", ⟨[Message.offer "s" "r" "a" 0], 30⟩)])] =
        [("r", [("b", ⟨[], 30⟩)])] := by
  decide

/-- Claim C5 (amended): a sweeper pass removes from each mailbox exactly
those messages whose age `now - createdAt` is at least `max_age`; a message
whose age is strictly below `max_age` is retained (and its peer entry
survives the pass). -/
theorem sweep_expiry (now : Nat) (rooms : Rooms) (rid pid : String) (peers : PeersMap)
    (pd : PeerData) (msg : Message) (hWF : WF rooms) (hr : find? rooms rid = some peers)
    (hp : find? peers pid = some pd) (hm : msg ∈ pd.messages) :
    now - msg.timestamp < max_age ↔
      ∃ peers' pd', find? (cleanup_pass now rooms) rid = some peers' ∧
        find? peers' pid = some pd' ∧ msg ∈ pd'.messages := by
  have hndp : (peers.map Prod.fst).Nodup := hWF.2 (rid, peers) (find?_mem hr)
  constructor
  · intro hlt
    have hmem : msg ∈ (sweepPeer now pd).messages :=
      List.mem_filter.2 ⟨hm, by simpa using hlt⟩
    have hne : (sweepPeer now pd).messages ≠ [] := List.ne_nil_of_mem hmem
    have hsweep : find? (sweepRoom now peers) pid = some (sweepPeer now pd) := by
      rw [find?_sweepRoom now peers pid hndp, hp, Option.some_bind, if_neg]
      intro hand
      exact hne (List.length_eq_zero.1 hand.1)
    have hroomne : ¬(sweepRoom now peers).length = 0 := by
      intro h0
      rw [List.length_eq_zero.1 h0] at hsweep
      simp [find?] at hsweep
    refine ⟨sweepRoom now peers, sweepPeer now pd, ?_, hsweep, hmem⟩
    rw [find?_cleanup now rooms rid hWF.1, hr, Option.some_bind, if_neg hroomne]
  · rintro ⟨peers', pd', h1, h2, h3⟩
    rw [find?_cleanup now rooms rid hWF.1, hr, Option.some_bind] at h1
    by_cases h0 : (sweepRoom now peers).length = 0
    · rw [if_pos h0] at h1
      exact absurd h1 (by simp)
    · rw [if_neg h0] at h1
      have hpeers' : peers' = sweepRoom now peers := by
        injection h1 with h1
        exact h1.symm
      subst hpeers'
      rw [find?_sweepRoom now peers pid hndp, hp, Option.some_bind] at h2
      by_cases hcond : (sweepPeer now pd).messages.length = 0 ∧
          max_age < now - (sweepPeer now pd).lastPoll
      · rw [if_pos hcond] at h2
        exact absurd h2 (by simp)
      · rw [if_neg hcond] at h2
        have hpd' : pd' = sweepPeer now pd := by
          injection h2 with h2
          exact h2.symm
        subst hpd'
        simpa using (List.mem_filter.1 h3).2

/-- Concrete run of `sweep_expiry`: a message of age 10 survives the pass. -/
theorem sweep_expiry_witness :
    ∃ peers' pd',
      find? (cleanup_pass 10 [("r", [("b", ⟨[Message.offer "s" "r" "a" 0], 0⟩)])])
          "r" = some peers' ∧
        find? peers' "b" = some pd' ∧ Message.offer "s" "r" "a" 0 ∈ pd'.messages :=
  (sweep_expiry 10 [("r", [("b", ⟨[Message.offer "s" "r" "a" 0], 0⟩)])] "r" "b"
      [("b", ⟨[Message.offer "s" "r" "a" 0], 0⟩)] ⟨[Message.offer "s" "r" "a" 0], 0⟩
      (Message.offer "s" "r" "a" 0) (by constructor <;> decide) (by decide) (by decide)
      (by decide)).1 (by decide)

/-- Claim C6: a peer whose mailbox is still non-empty after the expiry step is
never removed by the sweeper pass, no matter how old its `lastPoll` is (no
hypothesis on `pd.lastPoll` appears). -/
theorem sweep_no_evict_nonempty (now : Nat) (rooms : Rooms) (rid pid : String)
    (peers : PeersMap) (pd : PeerData) (hWF : WF rooms)
    (hr : find? rooms rid = some peers) (hp : find? peers pid = some pd)
    (hne : (sweepPeer now pd).messages ≠ []) :
    ∃ peers', find? (cleanup_pass now rooms) rid = some peers' ∧
      find? peers' pid = some (sweepPeer now pd) := by
  have hndp : (peers.map Prod.fst).Nodup := hWF.2 (rid, peers) (find?_mem hr)
  have hsweep : find? (sweepRoom now peers) pid = some (sweepPeer now pd) := by
    rw [find?_sweepRoom now peers pid hndp, hp, Option.some_bind, if_neg]
    intro hand
    exact hne (List.length_eq_zero.1 hand.1)
  have hroomne : ¬(sweepRoom now peers).length = 0 := by
    intro h0
    rw [List.length_eq_zero.1 h0] at hsweep
    simp [find?] at hsweep
  refine ⟨sweepRoom now peers, ?_, hsweep⟩
  rw [find?_cleanup now rooms rid hWF.1, hr, Option.some_bind, if_neg hroomne]

/-- Concrete run of `sweep_no_evict_nonempty`: a peer holding a fresh message
but idle for 1000 time units is not evicted. -/
theorem sweep_no_evict_nonempty_witness :
    ∃ peers',
      find? (cleanup_pass 1000 [("r", [("b", ⟨[Message.offer "s" "r" "a" 995], 0⟩)])])
          "r" = some peers' ∧
        find? peers' "b" = some (sweepPeer 1000 ⟨[Message.offer "s" "r" "a" 995], 0⟩) :=
  sweep_no_evict_nonempty 1000 [("r", [("b", ⟨[Message.offer "s" "r" "a" 995], 0⟩)])]
    "r" "b" [("b", ⟨[Message.offer "s" "r" "a" 995], 0⟩)]
    ⟨[Message.offer "s" "r" "a" 995], 0⟩ (by constructor <;> decide) (by decide)
    (by decide) (by decide)

/-- Claim C7: at a sweeper pass, every peer whose mailbox is empty after
expiry and whose last poll is more than `max_age` old is removed from its
room; every room left with zero peers is removed from the registry in the
same pass; and the status room count over the swept registry counts exactly
the rooms with a surviving peer. -/
theorem sweep_idle_eviction (now : Nat) (rooms : Rooms) (hWF : WF rooms) :
    (∀ rid peers pid pd, find? rooms rid = some peers → find? peers pid = some pd →
      (sweepPeer now pd).messages = [] → max_age < now - pd.lastPoll →
      peerAt (cleanup_pass now rooms) rid pid = none) ∧
    (∀ rid peers, find? rooms rid = some peers → sweepRoom now peers = [] →
      find? (cleanup_pass now rooms) rid = none) ∧
    (get_status (cleanup_pass now rooms)).1 =
      (rooms.filter (fun e => !(decide ((sweepRoom now e.2).length = 0)))).length := by
  refine ⟨?_, ?_, ?_⟩
  · intro rid peers pid pd hr hp hempty hidle
    have hndp : (peers.map Prod.fst).Nodup := hWF.2 (rid, peers) (find?_mem hr)
    rw [peerAt, find?_cleanup now rooms rid hWF.1, hr, Option.some_bind]
    by_cases h0 : (sweepRoom now peers).length = 0
    · rw [if_pos h0]
      rfl
    · rw [if_neg h0, Option.some_bind, find?_sweepRoom now peers pid hndp, hp,
        Option.some_bind, if_pos]
      exact ⟨by simp [hempty], hidle⟩
  · intro rid peers hr hempty
    rw [find?_cleanup now rooms rid hWF.1, hr, Option.some_bind, if_pos (by simp [hempty])]
  · unfold cleanup_pass get_status
    exact length_filter_map _ _ _

/-- Concrete run of `sweep_idle_eviction`: peer `"b"` (empty mailbox, last
poll at 0) is evicted at a sweep at time 40, its singleton room `"r"` is
removed, and the status room count drops to 0. -/
theorem sweep_idle_eviction_witness :
    peerAt (cleanup_pass 40 [("r", [("b", ⟨[], 0⟩)])]) "r" "b" = none ∧
      find? (cleanup_pass 40 [("r", [("b", ⟨[], 0⟩)])]) "r" = none ∧
      (get_status (cleanup_pass 40 [("r", [("b", ⟨[], 0⟩)])])).1 = 0 := by
  have h := sweep_idle_eviction 40 [("r", [("b", ⟨[], 0⟩)])] (by constructor <;> decide)
  exact ⟨h.1 "r" [("b", ⟨[], 0⟩)] "b" ⟨[], 0⟩ (by decide) (by decide) (by decide)
      (by decide),
    h.2.1 "r" [("b", ⟨[], 0⟩)] (by decide) (by decide),
    (h.2.2).trans (by decide)⟩

/-- Claim C4 is false as stated: a submit-offer into a previously unknown room
creates the room but no peer entry (the sender never gets one), so immediately
after this mutating operation the registry holds a room with zero peers. -/
theorem room_nonempty_counterexample :
    (handle_offer 0 (some "v=0") (some "r1") none []).2 = [("r1", [])] := by
  decide

/-- Claim C4 (amended): immediately after a sweeper pass, every room present
in the registry has at least one peer entry, and a poll always leaves the
polled room with at least one peer entry; a submit, however, can create or
leave a room with zero peer entries (when no other peer has been seen there),
which persists until the next sweep. -/
theorem room_nonempty_amended (now : Nat) (rooms : Rooms) :
    (∀ rid peers, find? (cleanup_pass now rooms) rid = some peers → peers ≠ []) ∧
    (∀ roomId peerId, truthy roomId = true →
      ∃ peers, find? (poll_messages now roomId peerId rooms).2 (roomId.getD "") =
          some peers ∧ peers ≠ []) := by
  constructor
  · intro rid peers h
    have hmem := find?_mem h
    have := (List.mem_filter.1 hmem).2
    simp only [Bool.not_eq_eq_eq_not, Bool.not_true, decide_eq_false_iff_not] at this
    intro hnil
    exact this (by simp [hnil])
  · intro roomId peerId hv
    rw [poll_messages_valid now roomId peerId rooms hv]
    exact ⟨_, find?_setKey_self _ _ _, setKey_ne_nil _ _ _⟩

/-- Concrete run of `room_nonempty_amended`: the surviving room `"s"` is
non-empty after a sweep, and a poll of fresh room `"r2"` leaves it with a
peer entry. -/
theorem room_nonempty_amended_witness :
    ([("p", (⟨[], 40⟩ : PeerData))] : PeersMap) ≠ [] ∧
      ∃ peers, find? (poll_messages 50 (some "r2") none
          [("s", [("p", ⟨[], 40⟩)])]).2 "r2" = some peers ∧ peers ≠ [] := by
  have h := room_nonempty_amended 50 [("s", [("p", ⟨[], 40⟩)])]
  exact ⟨h.1 "s" [("p", ⟨[], 40⟩)] (by decide), h.2 (some "r2") none (by decide)⟩

/-! ### Validation errors -/

/-- Claim C8: a submit whose required string fields are missing or empty
(`sdp`/`roomId` for offer and answer, `candidate`/`roomId` for ICE candidate)
reports the validation failure (`none`) and returns the registry unchanged. -/
theorem submit_validation (now : Nat) (sdp cand mid roomId peerId : Option String)
    (mli : Option Int) (rooms : Rooms) :
    (¬(truthy sdp = true ∧ truthy roomId = true) →
      handle_offer now sdp roomId peerId rooms = (none, rooms) ∧
        handle_answer now sdp roomId peerId rooms = (none, rooms)) ∧
    (¬(truthy cand = true ∧ truthy roomId = true) →
      handle_ice_candidate now cand mid mli roomId peerId rooms = (none, rooms)) := by
  constructor
  · intro h
    cases hs : truthy sdp <;> cases hr : truthy roomId <;>
      simp [hs, hr] at h <;>
      simp [handle_offer, handle_answer, hs, hr]
  · intro h
    cases hc : truthy cand <;> cases hr : truthy roomId <;>
      simp [hc, hr] at h <;>
      simp [handle_ice_candidate, hc, hr]

/-- Concrete run of `submit_validation`: submits with a missing `sdp` or
`candidate` field and with an empty `roomId` fail and mutate nothing. -/
theorem submit_validation_witness :
    handle_offer 0 none (some "r") none [] = (none, []) ∧
      handle_answer 0 none (some "r") none [] = (none, []) ∧
      handle_ice_candidate 0 (some "c") none none (some "") none [] = (none, []) := by
  have h1 := (submit_validation 0 none (some "c") none (some "r") none none ([] : Rooms)).1
    (by decide)
  have h2 := (submit_validation 0 none (some "c") none (some "") none none ([] : Rooms)).2
    (by decide)
  exact ⟨h1.1, h1.2, h2⟩

/-! ### Monotonicity of `lastPoll` -/

/-- `lastPoll` never decreases across one operation completing at time `now`
(under a non-decreasing clock, i.e. every stored `lastPoll` is at most
`now`): each surviving peer entry keeps its old value or gets `now`. -/
def MonoOK (rooms rooms' : Rooms) (now : Nat) : Prop :=
  ∀ rid pid pd pd', peerAt rooms rid pid = some pd → peerAt rooms' rid pid = some pd' →
    pd.lastPoll ≤ now → pd.lastPoll ≤ pd'.lastPoll

theorem peerAt_some {rooms : Rooms} {rid pid : String} {pd : PeerData}
    (h : peerAt rooms rid pid = some pd) :
    ∃ peers, find? rooms rid = some peers ∧ find? peers pid = some pd := by
  rw [peerAt] at h
  cases hfr : find? rooms rid with
  | none => rw [hfr] at h; exact absurd h (by simp)
  | some peers => rw [hfr, Option.some_bind] at h; exact ⟨peers, rfl, h⟩

theorem monoOK_refl (rooms : Rooms) (now : Nat) : MonoOK rooms rooms now := by
  intro rid pid pd pd' h h' hle
  rw [Option.some.inj (h'.symm.trans h)]

theorem submit_mono (now : Nat) (rid pid : String) (msg : Message) (rooms : Rooms)
    (hWF : WF rooms) : MonoOK rooms (submitMessage now rid pid msg rooms).2 now := by
  intro rid' pid' pd pd' h h' hle
  obtain ⟨peers, hfr, hfp⟩ := peerAt_some h
  by_cases hrid : rid = rid'
  · subst hrid
    have hnd : ((((find? rooms rid).getD []) : PeersMap).map Prod.fst).Nodup := by
      rw [hfr]
      exact hWF.2 (rid, peers) (find?_mem hfr)
    by_cases hpid : pid' = pid
    · subst hpid
      have e : peerAt (submitMessage now rid pid' msg rooms).2 rid pid' = some pd := by
        rw [(submitMessage_peer now rid pid' msg rooms hnd).1, hfr, Option.getD_some, hfp]
      rw [Option.some.inj (h'.symm.trans e)]
    · have e := (submitMessage_peer now rid pid msg rooms hnd).2 pid' hpid
      rw [hfr, Option.getD_some, hfp] at e
      rw [Option.some.inj (h'.symm.trans e)]
  · have e2 : peerAt (submitMessage now rid pid msg rooms).2 rid' pid' =
        peerAt rooms rid' pid' := by
      rw [peerAt, peerAt, submitMessage_other_room now rid pid msg rooms hrid]
    rw [e2] at h'
    rw [Option.some.inj (h'.symm.trans h)]

theorem poll_mono (now : Nat) (roomId peerId : Option String) (rooms : Rooms) :
    MonoOK rooms (poll_messages now roomId peerId rooms).2 now := by
  cases hv : truthy roomId with
  | false =>
      have : (poll_messages now roomId peerId rooms).2 = rooms := by
        simp [poll_messages, hv]
      rw [this]
      exact monoOK_refl rooms now
  | true =>
      intro rid' pid' pd pd' h h' hle
      obtain ⟨peers, hfr, hfp⟩ := peerAt_some h
      rw [poll_messages_valid now roomId peerId rooms hv] at h'
      by_cases hrid : roomId.getD "" = rid'
      · subst hrid
        rw [peerAt, find?_setKey_self, Option.some_bind] at h'
        by_cases hpid : peerId.getD "unknown" = pid'
        · subst hpid
          rw [find?_setKey_self] at h'
          rw [← Option.some.inj h']
          exact hle
        · rw [find?_setKey_ne _ _ _ _ hpid, hfr, Option.getD_some, hfp] at h'
          rw [Option.some.inj h'.symm]
      · rw [peerAt, find?_setKey_ne _ _ _ _ hrid, find?_ensureRoom_ne _ hrid] at h'
        rw [hfr, Option.some_bind, hfp] at h'
        rw [Option.some.inj h']

theorem cleanup_mono (now : Nat) (rooms : Rooms) (hWF : WF rooms) :
    MonoOK rooms (cleanup_pass now rooms) now := by
  intro rid pid pd pd' h h' hle
  obtain ⟨peers, hfr, hfp⟩ := peerAt_some h
  have hndp : (peers.map Prod.fst).Nodup := hWF.2 (rid, peers) (find?_mem hfr)
  rw [peerAt, find?_cleanup now rooms rid hWF.1, hfr, Option.some_bind] at h'
  by_cases h0 : (sweepRoom now peers).length = 0
  · rw [if_pos h0] at h'
    exact absurd h' (by simp)
  · rw [if_neg h0, Option.some_bind, find?_sweepRoom now peers pid hndp, hfp,
      Option.some_bind] at h'
    by_cases hcond : (sweepPeer now pd).messages.length = 0 ∧
        max_age < now - (sweepPeer now pd).lastPoll
    · rw [if_pos hcond] at h'
      exact absurd h' (by simp)
    · rw [if_neg hcond] at h'
      rw [← Option.some.inj h']
      exact le_refl _

/-- Claim C9: `lastPollAt` is monotonically non-decreasing per peer — each of
the five mutating operations, run at time `now` not earlier than the entry's
stored `lastPoll`, either keeps a surviving peer entry's `lastPoll` unchanged
or sets it to `now`. -/
theorem lastPoll_monotone (now : Nat) (sdp cand mid roomId peerId : Option String)
    (mli : Option Int) (rooms : Rooms) (hWF : WF rooms) :
    MonoOK rooms (handle_offer now sdp roomId peerId rooms).2 now ∧
      MonoOK rooms (handle_answer now sdp roomId peerId rooms).2 now ∧
      MonoOK rooms (handle_ice_candidate now cand mid mli roomId peerId rooms).2 now ∧
      MonoOK rooms (poll_messages now roomId peerId rooms).2 now ∧
      MonoOK rooms (cleanup_pass now rooms) now := by
  refine ⟨?_, ?_, ?_, poll_mono now roomId peerId rooms, cleanup_mono now rooms hWF⟩
  · cases hs : truthy sdp <;> cases hr : truthy roomId
    case true.true =>
      have e : (handle_offer now sdp roomId peerId rooms).2 =
          (submitMessage now (roomId.getD "") (peerId.getD "unknown")
            (Message.offer (sdp.getD "") (roomId.getD "") (peerId.getD "unknown") now)
            rooms).2 := by
        rw [handle_offer_valid now sdp roomId peerId rooms hs hr]
      rw [e]
      exact submit_mono now _ _ _ rooms hWF
    all_goals
      rw [show (handle_offer now sdp roomId peerId rooms).2 = rooms by
        simp [handle_offer, hs, hr]]
      exact monoOK_refl rooms now
  · cases hs : truthy sdp <;> cases hr : truthy roomId
    case true.true =>
      have e : (handle_answer now sdp roomId peerId rooms).2 =
          (submitMessage now (roomId.getD "") (peerId.getD "unknown")
            (Message.answer (sdp.getD "") (roomId.getD "") (peerId.getD "unknown") now)
            rooms).2 := by
        rw [handle_answer_valid now sdp roomId peerId rooms hs hr]
      rw [e]
      exact submit_mono now _ _ _ rooms hWF
    all_goals
      rw [show (handle_answer now sdp roomId peerId rooms).2 = rooms by
        simp [handle_answer, hs, hr]]
      exact monoOK_refl rooms now
  · cases hc : truthy cand <;> cases hr : truthy roomId
    case true.true =>
      have e : (handle_ice_candidate now cand mid mli roomId peerId rooms).2 =
          (submitMessage now (roomId.getD "") (peerId.getD "unknown")
            (Message.ice (cand.getD "") (mid.getD "") (mli.getD 0) (roomId.getD "")
              (peerId.getD "unknown") now) rooms).2 := by
        rw [handle_ice_valid now cand mid mli roomId peerId rooms hc hr]
      rw [e]
      exact submit_mono now _ _ _ rooms hWF
    all_goals
      rw [show (handle_ice_candidate now cand mid mli roomId peerId rooms).2 = rooms by
        simp [handle_ice_candidate, hc, hr]]
      exact monoOK_refl rooms now

/-- Concrete run of `lastPoll_monotone` on a one-peer registry at time 7. -/
theorem lastPoll_monotone_witness :
    MonoOK [("r", [("a", ⟨[], 5⟩)])]
        (handle_offer 7 (some "x") (some "r") (some "a") [("r", [("a", ⟨[], 5⟩)])]).2 7 ∧
      MonoOK [("r", [("a", ⟨[], 5⟩)])]
        (handle_answer 7 (some "x") (some "r") (some "a") [("r", [("a", ⟨[], 5⟩)])]).2 7 ∧
      MonoOK [("r", [("a", ⟨[], 5⟩)])]
        (handle_ice_candidate 7 (some "c") none none (some "r") (some "a")
          [("r", [("a", ⟨[], 5⟩)])]).2 7 ∧
      MonoOK [("r", [("a", ⟨[], 5⟩)])]
        (poll_messages 7 (some "r") (some "a") [("r", [("a", ⟨[], 5⟩)])]).2 7 ∧
      MonoOK [("r", [("a", ⟨[], 5⟩)])] (cleanup_pass 7 [("r", [("a", ⟨[], 5⟩)])]) 7 :=
  lastPoll_monotone 7 (some "x") (some "c") none (some "r") (some "a") none
    [("r", [("a", ⟨[], 5⟩)])] (by constructor <;> decide)

/-! ### Default peer id on poll -/

/-- Claim C10: a poll that omits `peerId` uses the literal `"unknown"` — it is
indistinguishable from a poll with `peerId = "unknown"`, and (for a valid
`roomId`) it leaves the room's mailbox keyed `"unknown"` drained with its
`lastPoll` refreshed to `now`, the single mailbox all anonymous pollers
share. -/
theorem poll_default_unknown (now : Nat) (roomId : Option String) (rooms : Rooms) :
    poll_messages now roomId none rooms =
        poll_messages now roomId (some "unknown") rooms ∧
      (truthy roomId = true →
        peerAt (poll_messages now roomId none rooms).2 (roomId.getD "") "unknown" =
          some ⟨[], now⟩) := by
  refine ⟨rfl, fun hv => ?_⟩
  rw [poll_messages_valid now roomId none rooms hv, peerAt, find?_setKey_self,
    Option.some_bind]
  simp only [Option.getD_none]
  rw [find?_setKey_self]

/-- Concrete run of `poll_default_unknown` on room `"r"`. -/
theorem poll_default_unknown_witness :
    peerAt (poll_messages 3 (some "r") none
        [("r", [("unknown", ⟨[Message.offer "s" "r" "a" 1], 0⟩)])]).2 "r" "unknown" =
      some ⟨[], 3⟩ :=
  (poll_default_unknown 3 (some "r")
    [("r", [("unknown", ⟨[Message.offer "s" "r" "a" 1], 0⟩)])]).2 (by decide)

/-- Concrete run of `fifo_order`: offer, ICE candidate, answer submitted by
`"p1"` are polled by `"p2"` in exactly that order. -/
theorem fifo_order_witness :
    (poll_messages 4 (some "r1") (some "p2")
        (handle_answer 3 (some "sA") (some "r1") (some "p1")
          (handle_ice_candidate 2 (some "c0") (some "m") (some 0) (some "r1") (some "p1")
            (handle_offer 1 (some "sO") (some "r1") (some "p1")
              [("r1", [("p2", ⟨[], 0⟩)])]).2).2).2).1 =
      some [Message.offer "sO" "r1" "p1" 1,
        Message.ice "c0" "m" 0 "r1" "p1" 2,
        Message.answer "sA" "r1" "p1" 3] :=
  fifo_order 1 2 3 4 "r1" "p1" "p2" "sO" "c0" "m" "sA" 0
    [("r1", [("p2", ⟨[], 0⟩)])] (by decide) (by decide) (by decide) (by decide)
    (by decide) (by decide) ⟨[], 0⟩ (by decide) (by decide)
